import Mathlib

/-!
Verification of the Oroboreo "Golden Loop" orchestration CLI.

The development shallowly embeds the task-store parser, the model-tier
selector, the session-resume decision, the agent-supervision actions, the
archive-path derivation, the test-classification heuristic and the main
execution loop of `oreo-run.js` (src/unnamed/part_003) and
`src/utils/oreo-archive.js` as pure Lean functions over `List Char`, and
proves or refutes the specification's claims about them.

Strings are modelled as `List Char`; JavaScript regular expressions are
compiled by hand into character-level scanners, ASCII-faithful (the unicode
exotics of JS `\s` beyond the ASCII whitespace class never occur in the
inputs this repository parses).
-/

namespace Oroboreo

/-- Strings are lists of characters throughout the model. -/
abbrev Chars := List Char

/-! ## Character helpers (JS `\s`, `\d`, `\w`, ASCII case folding) -/

/-- The ASCII part of the JS whitespace class `\s` (space, tab, newline,
carriage return, vertical tab, form feed). -/
def isJsWs (c : Char) : Bool :=
  c = ' ' || c = '\t' || c = '\n' || c = '\r' || c.toNat = 11 || c.toNat = 12

/-- JS `\w`: `[A-Za-z0-9_]`. -/
def isWordChar (c : Char) : Bool :=
  c.isAlpha || c.isDigit || c = '_'

/-- The class `[a-z]` under the `/i` flag: an ASCII letter. -/
def isAlphaCI (c : Char) : Bool :=
  'a' ≤ c.toLower && c.toLower ≤ 'z'

/-- JS `String.prototype.trim()`: drop whitespace from both ends. -/
def trimChars (l : Chars) : Chars :=
  ((l.dropWhile isJsWs).reverse.dropWhile isJsWs).reverse

/-- Lowercase a string (ASCII, as all tags and keywords are ASCII). -/
def lowerStr (l : Chars) : Chars := l.map Char.toLower

/-- Numeric value of a digit run, as `parseInt(ds, 10)` computes it. -/
def digitsVal (ds : Chars) : Nat :=
  ds.foldl (fun a c => 10 * a + (c.toNat - 48)) 0

/-- Drop a literal pattern case-insensitively from the front, or fail. -/
def dropCI : Chars → Chars → Option Chars
  | [], l => some l
  | _ :: _, [] => none
  | p :: ps, c :: cs => if c.toLower = p.toLower then dropCI ps cs else none

/-- Case-insensitive equality of whole strings. -/
def eqCI (a b : Chars) : Bool :=
  lowerStr a = lowerStr b

/-- JS `hay.includes(needle)`: some suffix of `hay` starts with `needle`. -/
def hasSub (needle : Chars) : Chars → Bool
  | [] => needle.isEmpty
  | c :: rest => needle.isPrefixOf (c :: rest) || hasSub needle rest

/-- Case-insensitive `includes`, for regexes under the `/i` flag. -/
def hasSubCI (needle hay : Chars) : Bool :=
  hasSub (lowerStr needle) (lowerStr hay)

/-- JS `content.split('\n')`, keeping empty pieces as JS does. -/
def splitLines : Chars → List Chars
  | [] => [[]]
  | '\n' :: rest => [] :: splitLines rest
  | c :: rest =>
    match splitLines rest with
    | l :: ls => (c :: l) :: ls
    | [] => [[c]]

/-! ## Task store parser (`parseTasks`, src/unnamed/part_003 lines 185-218)

The task-line regex is
`/^-\s*\[([ x])\]\s*\*\*Task\s+(\d+):\s*(.+?)\*\*(?:\s*(\[.+?\]))?/i`.
Each piece is compiled into a scanner below. -/

/-- Skip `\s*`. -/
def skipWs : Chars → Chars
  | [] => []
  | c :: rest => if isJsWs c then skipWs rest else c :: rest

/-- Consume `\s+` (at least one whitespace character). -/
def skipWs1 : Chars → Option Chars
  | [] => none
  | c :: rest => if isJsWs c then some (skipWs rest) else none

/-- A character `.` matches (anything but a line terminator). -/
def isDotChar (c : Char) : Bool :=
  !(c = '\n' || c = '\r' || c.toNat = 0x2028 || c.toNat = 0x2029)

/-- The lazy group `(.+?)\*\*`: the shortest non-empty run of `.`-characters
followed by `**`; returns the run and the characters after the `**`. -/
def lazyUntilStars : Chars → Option (Chars × Chars)
  | [] => none
  | c :: rest =>
    if isDotChar c then
      match rest with
      | '*' :: '*' :: tail => some ([c], tail)
      | _ =>
        match lazyUntilStars rest with
        | some (t, after) => some (c :: t, after)
        | none => none
    else none

/-- The lazy body of `\[.+?\]`: the shortest non-empty run of `.`-characters
followed by `]`. -/
def lazyUntilRB : Chars → Option (Chars × Chars)
  | [] => none
  | c :: rest =>
    if isDotChar c then
      match rest with
      | ']' :: tail => some ([c], tail)
      | _ =>
        match lazyUntilRB rest with
        | some (t, after) => some (c :: t, after)
        | none => none
    else none

/-- The optional tag group `(?:\s*(\[.+?\]))?` applied after the title's
`**`: skip whitespace, then a bracketed tag if one is there. -/
def tagOf (l : Chars) : Option Chars :=
  match skipWs l with
  | '[' :: rest =>
    match lazyUntilRB rest with
    | some (t, _) => some ('[' :: t ++ [']'])
    | none => none
  | _ => none

/-- One parsed task record (id, title with tag folded in, checkbox state,
detail block). -/
structure Task where
  id : Nat
  title : Chars
  completed : Bool
  details : Chars
deriving DecidableEq

/-- The full in-memory title: the trimmed captured title, with the tag,
when present, appended after one space
(`tag ? title.trim() + ' ' + tag : title.trim()`). -/
def buildTitle (t afterStars : Chars) : Chars :=
  match tagOf afterStars with
  | some tg => trimChars t ++ ' ' :: tg
  | none => trimChars t

/-- Match the task-line regex against one line; produce
`(completed, id, full title)` exactly as the source builds them:
`completed` is `checkmark.toLowerCase() === 'x'` and the id is `parseInt`.
The greedy `\s*` before the lazy `(.+?)\*\*` normally skips all
whitespace; when no `**` follows at distance one or more (the lazy group
finds nothing), the engine gives one whitespace character back, so a line
whose text after the skip itself starts with `**` still matches, with that
single whitespace character as the captured title. -/
def matchTaskLine (line : Chars) : Option (Bool × Nat × Chars) :=
  match line with
  | '-' :: r0 =>
    match skipWs r0 with
    | '[' :: m :: ']' :: r2 =>
      if m = ' ' || m = 'x' || m = 'X' then
        match skipWs r2 with
        | '*' :: '*' :: r4 =>
          match dropCI ['t', 'a', 's', 'k'] r4 with
          | some r5 =>
            match skipWs1 r5 with
            | some r6 =>
              match r6.span Char.isDigit with
              | (ds, r7) =>
                if ds.isEmpty then none
                else
                  match r7 with
                  | ':' :: r8 =>
                    match lazyUntilStars (skipWs r8) with
                    | some (t, r10) =>
                      some (m = 'x' || m = 'X', digitsVal ds, buildTitle t r10)
                    | none =>
                      match skipWs r8 with
                      | '*' :: '*' :: r10 =>
                        match (r8.takeWhile isJsWs).getLast? with
                        | some w =>
                          if isDotChar w then
                            some (m = 'x' || m = 'X', digitsVal ds,
                              buildTitle [w] r10)
                          else none
                        | none => none
                      | _ => none
                  | _ => none
            | none => none
          | none => none
        | _ => none
      else none
    | _ => none
  | _ => none

/-- A detail line: `lines[j].startsWith('  -') || lines[j].startsWith('    ')`. -/
def isIndented (l : Chars) : Bool :=
  [' ', ' ', '-'].isPrefixOf l || [' ', ' ', ' ', ' '].isPrefixOf l

/-- JS `details.join('\n')`. -/
def joinNl : List Chars → Chars
  | [] => []
  | [l] => l
  | l :: ls => l ++ '\n' :: joinNl ls

/-- The detail block gathered below a task line: the run of indented lines,
each pushed `trim()`-med. -/
def takeDetails (ls : List Chars) : Chars :=
  joinNl ((ls.takeWhile isIndented).map trimChars)

/-- The line scan of `parseTasks`: every line is tried against the task
regex (as the source's `for` loop does — indented detail lines can never
match, since the regex demands a leading `-`). -/
def parseTasksLines : List Chars → List Task
  | [] => []
  | l :: rest =>
    match matchTaskLine l with
    | some (done, tid, fullTitle) =>
      ⟨tid, fullTitle, done, takeDetails rest⟩ :: parseTasksLines rest
    | none => parseTasksLines rest

/-- The parse of the full text of cookie-crumbs.md (the source reads the
file and returns `[]` when it is missing; the model takes the text). -/
def parseTasks (content : Chars) : List Task :=
  parseTasksLines (splitLines content)

/-! ## Model selector (`selectModel`, src/unnamed/part_003 lines 224-240)

`CONFIG.models.HAIKU` is the cheap tier and `CONFIG.models.SONNET` the
standard tier; `OPUS` (premium) is never returned by `selectModel`. -/

/-- The three model tiers: haiku = cheap, sonnet = standard, opus = premium. -/
inductive Tier
  | haiku
  | sonnet
  | opus
deriving DecidableEq

/-- The fixed complexity keyword set of `selectModel`. -/
def complexKeywords : List Chars :=
  ["architecture", "refactor", "database", "migration", "schema",
   "design", "plan", "implement", "build", "api", "security",
   "critical"].map String.toList

/-- Source `selectModel`: lowercased title+details text, explicit tags first,
then keyword analysis, defaulting to the cheapest tier. -/
def selectModel (t : Task) : Tier :=
  let text := lowerStr (t.title ++ ' ' :: t.details)
  if hasSub "[simple]".toList text then .haiku
  else if hasSub "[complex]".toList text || hasSub "[critical]".toList text then .sonnet
  else if complexKeywords.any (fun kw => hasSub kw text) then .sonnet
  else .haiku

/-! ## Session resume decision
(`checkSessionIncomplete` lines 279-339 and `setupGitBranch` lines 356-371
of src/unnamed/part_003) -/

/-- The scanner for `/\*\*Task \d+:/` at the head of a string
(case-sensitive, single literal space): a "real", numbered task mention. -/
def realTaskAt : Chars → Bool
  | '*' :: '*' :: 'T' :: 'a' :: 's' :: 'k' :: ' ' :: rest =>
    match rest.span Char.isDigit with
    | (ds, r) => !ds.isEmpty && r.head? = some ':'
  | _ => false

/-- JS `content.match` of the regex `\*\*Task \d+:` is non-null: the pattern occurs
somewhere in the text. -/
def hasRealTask : Chars → Bool
  | [] => false
  | c :: rest => realTaskAt (c :: rest) || hasRealTask rest

/-- The scanner for the regex `- \[ \] \*\*Task \d+:` at the head of a string:
an incomplete numbered task line (exact single spaces, case-sensitive). -/
def incompleteTaskAt : Chars → Bool
  | '-' :: ' ' :: '[' :: ' ' :: ']' :: ' ' :: rest => realTaskAt rest
  | _ => false

/-- JS `content.match` of the global regex `- \[ \] \*\*Task \d+:` is non-null. -/
def hasIncompleteTask : Chars → Bool
  | [] => false
  | c :: rest => incompleteTaskAt (c :: rest) || hasIncompleteTask rest

/-- Source `checkSessionIncomplete`: missing file → `false`; no numbered task
(template) → `false`; an incomplete numbered task → `true`; otherwise the
git commit-count check runs, every branch of which (ahead of main, not
ahead, git error) falls through to `false`.  `commitsAhead` is the
`git rev-list --count` result (`none` = the git call failed); the body shows
it never changes the answer. -/
def checkSessionIncomplete (fileExists : Bool) (content : Chars)
    (commitsAhead : Option Nat) : Bool :=
  if !fileExists then false
  else if !hasRealTask content then false
  else if hasIncompleteTask content then true
  else
    match commitsAhead with
    | some n => if n > 0 then false else false
    | none => false

/-- The session-branch naming convention: `currentBranch.startsWith('oreo-')`. -/
def sessionBranchLead : Chars := "oreo-".toList

/-- The resume decision of `setupGitBranch`: an existing session branch is
kept (the early `return currentBranch`) exactly when the branch name carries
the session naming convention and `checkSessionIncomplete` holds. -/
def resumeDecision (currentBranch : Chars) (fileExists : Bool)
    (content : Chars) (commitsAhead : Option Nat) : Bool :=
  sessionBranchLead.isPrefixOf currentBranch &&
    checkSessionIncomplete fileExists content commitsAhead

/-! ## Test classification (`isTestReusable`, src/utils/oreo-archive.js
lines 268-316) -/

/-- The regex `task-?\d+` (with `/i`) at the head of a string. -/
def taskNumAt : Chars → Bool
  | t :: a :: s :: k :: rest =>
    t.toLower = 't' && a.toLower = 'a' && s.toLower = 's' && k.toLower = 'k' &&
      (match rest with
       | '-' :: d :: _ => d.isDigit
       | d :: _ => d.isDigit
       | [] => false)
  | _ => false

/-- The pattern `task-?\d+` occurs somewhere. -/
def hasTaskNum : Chars → Bool
  | [] => false
  | c :: rest => taskNumAt (c :: rest) || hasTaskNum rest

/-- The regex `\d{4}-\d{2}-\d{2}` at the head of a string. -/
def dateAt : Chars → Bool
  | a :: b :: c :: d :: '-' :: e :: f :: '-' :: g :: h :: _ =>
    a.isDigit && b.isDigit && c.isDigit && d.isDigit &&
      e.isDigit && f.isDigit && g.isDigit && h.isDigit
  | _ => false

/-- A date token occurs somewhere. -/
def hasDate : Chars → Bool
  | [] => false
  | c :: rest => dateAt (c :: rest) || hasDate rest

/-- The first stage of `isTestReusable`: the filename carries a
session-specific pattern (`task-?\d+`, a date, or `session|fix-|bug-`,
all case-insensitive). -/
def sessionSpecificName (filename : Chars) : Bool :=
  hasTaskNum filename || hasDate filename ||
    hasSubCI "session".toList filename || hasSubCI "fix-".toList filename ||
    hasSubCI "bug-".toList filename

/-- The run `[a-z]+` then the literal `tail` to the end of the string (the `$`
anchor), all case-insensitive: the middle of a generic filename pattern. -/
def midTail (tail : Chars) : Chars → Bool
  | [] => false
  | c :: rest => isAlphaCI c && (eqCI tail rest || midTail tail rest)

/-- A full-anchored generic pattern `^lead[a-z]+tail$` (case-insensitive). -/
def genericAt (lead tail filename : Chars) : Bool :=
  match dropCI lead filename with
  | some rest => midTail tail rest
  | none => false

/-- The second stage: the filename matches one of the four generic naming
conventions (`verify-…​.js`, `check-…​.js`, `validate-…​.js`,
`test-…​-flow.js`). -/
def matchesGeneric (filename : Chars) : Bool :=
  genericAt "verify-".toList ".js".toList filename ||
    genericAt "check-".toList ".js".toList filename ||
    genericAt "validate-".toList ".js".toList filename ||
    genericAt "test-".toList "-flow.js".toList filename

/-- The regex `userId\s*=\s*\d+` (case-sensitive) at the head. -/
def userIdAt : Chars → Bool
  | 'u' :: 's' :: 'e' :: 'r' :: 'I' :: 'd' :: rest =>
    match skipWs rest with
    | '=' :: r2 =>
      match skipWs r2 with
      | d :: _ => d.isDigit
      | [] => false
    | _ => false
  | _ => false

/-- The pattern `userId\s*=\s*\d+` occurs somewhere. -/
def hasUserIdAssign : Chars → Bool
  | [] => false
  | c :: rest => userIdAt (c :: rest) || hasUserIdAssign rest

/-- After `const\s+` and at least one word character: the rest of
`\w+Id\s*=\s*\d+` — the literal `Id`, then `\s*=\s*\d+`. -/
def idEqAt : Chars → Bool
  | 'I' :: 'd' :: rest =>
    match skipWs rest with
    | '=' :: r2 =>
      match skipWs r2 with
      | d :: _ => d.isDigit
      | [] => false
    | _ => false
  | _ => false

/-- The pattern `\w+Id\s*=\s*\d+` at the head: one or more word characters, with the
tail `Id\s*=\s*\d+` starting at some point after the first (the regex
engine's backtracking makes this an existential over the split). -/
def wordThenIdEq : Chars → Bool
  | [] => false
  | c :: rest => isWordChar c && (idEqAt rest || wordThenIdEq rest)

/-- The regex `const\s+\w+Id\s*=\s*\d+` (case-sensitive) at the head. -/
def constIdAt : Chars → Bool
  | 'c' :: 'o' :: 'n' :: 's' :: 't' :: rest =>
    match skipWs1 rest with
    | some r2 => wordThenIdEq r2
    | none => false
  | _ => false

/-- The pattern `const\s+\w+Id\s*=\s*\d+` occurs somewhere. -/
def hasConstIdAssign : Chars → Bool
  | [] => false
  | c :: rest => constIdAt (c :: rest) || hasConstIdAssign rest

/-- The regex `task\s*\d+` (with `/i`) at the head. -/
def taskWsNumAt : Chars → Bool
  | t :: a :: s :: k :: rest =>
    t.toLower = 't' && a.toLower = 'a' && s.toLower = 's' && k.toLower = 'k' &&
      (match skipWs rest with
       | d :: _ => d.isDigit
       | [] => false)
  | _ => false

/-- The pattern `task\s*\d+` occurs somewhere (a reference to a task number). -/
def hasTaskWsNum : Chars → Bool
  | [] => false
  | c :: rest => taskWsNumAt (c :: rest) || hasTaskWsNum rest

/-- The content stage of `isTestReusable`: one of the four hard-coded
session-specific content patterns matches. -/
def contentSessionSpecific (content : Chars) : Bool :=
  hasUserIdAssign content || hasConstIdAssign content ||
    hasTaskWsNum content ||
    hasSubCI "session".toList content || hasSubCI "temporary".toList content ||
    hasSubCI "temp".toList content

/-- Source `isTestReusable(filename, content)`: session-specific filename
patterns win; then a generic filename pattern plus (for truthy, i.e.
non-empty, content) a clean content check yields reusable; everything
else defaults to session-specific. -/
def isTestReusable (filename content : Chars) : Bool :=
  if sessionSpecificName filename then false
  else if matchesGeneric filename then
    if content.isEmpty then true
    else if contentSessionSpecific content then false
    else true
  else false

/-! ## Archive path derivation (`getArchivePath`, src/utils/oreo-archive.js
lines 118-146)

The folder name `YYYY-MM-DD-HH-MM-sessionName` is derived from the session's
creation timestamp and name; the collision loop
`while (fs.existsSync(finalPath)) finalPath = archivePath + '_' + counter++`
is modelled over the set (list) of already-existing paths. -/

/-- Decimal rendering, fuelled for structural recursion: most significant
digits first. -/
def natCharsAux : Nat → Nat → Chars
  | 0, _ => []
  | _ + 1, 0 => []
  | fuel + 1, n + 1 =>
    natCharsAux fuel ((n + 1) / 10) ++ [Char.ofNat (48 + (n + 1) % 10)]

/-- The decimal rendering of a counter value, as template-string
interpolation produces it (`n` itself is always enough fuel: a number has
at most as many digits as its value). -/
def natChars (n : Nat) : Chars :=
  if n = 0 then ['0'] else natCharsAux n n

/-- A value at least `10 ^ e` renders to at least `e + 1` digits. -/
theorem natCharsAux_len_ge :
    ∀ (e fuel n : Nat), 10 ^ e ≤ n → n ≤ fuel →
      e + 1 ≤ (natCharsAux fuel n).length := by
  intro e
  induction e with
  | zero =>
    intro fuel n hn hf
    simp only [pow_zero] at hn
    rcases n with _ | m
    · omega
    rcases fuel with _ | f
    · omega
    simp [natCharsAux]
  | succ e ih =>
    intro fuel n hn hf
    have h10 : (10 : Nat) ^ (e + 1) = 10 ^ e * 10 := by ring
    have hpow : (10 : Nat) ≤ 10 ^ (e + 1) := by
      have h1 : (0 : Nat) < 10 ^ e := by positivity
      omega
    have hn10 : 10 ≤ n := le_trans hpow hn
    rcases n with _ | m
    · omega
    rcases fuel with _ | f
    · omega
    have hdiv : 10 ^ e ≤ (m + 1) / 10 := by
      rw [Nat.le_div_iff_mul_le (by norm_num)]
      omega
    have hfuel : (m + 1) / 10 ≤ f := by
      have hlt := Nat.div_lt_self (by omega : 0 < m + 1) (by norm_num : 1 < 10)
      omega
    have := ih f ((m + 1) / 10) hdiv hfuel
    simp only [natCharsAux, List.length_append, List.length_cons,
      List.length_nil]
    omega

/-- The k-th candidate path: the base path itself, then
`base_1`, `base_2`, …. -/
def candidate (base : Chars) : Nat → Chars
  | 0 => base
  | Nat.succ k => base ++ '_' :: natChars (k + 1)

/-- The length of every member of a list of paths is bounded. -/
def pathLenBound (existing : List Chars) : Nat :=
  existing.foldr (fun s m => max s.length m) 0

/-- Some candidate is free: a candidate with a long enough numeric suffix
is longer than every existing path, hence not among them.  (This is the
termination argument for the source's unbounded `while` loop.) -/
def existsFreeCandidate (existing : List Chars) (base : Chars) :
    ∃ k, candidate base k ∉ existing := by
  have hlen : ∀ s ∈ existing, s.length ≤ pathLenBound existing := by
    induction existing with
    | nil => intro s hs; cases hs
    | cons a l ih =>
      intro s hs
      rcases List.mem_cons.mp hs with h | h
      · subst h
        exact Nat.le_max_left _ _
      · have := ih s h
        simp only [pathLenBound, List.foldr] at this ⊢
        omega
  refine ⟨10 ^ pathLenBound existing, fun hmem => ?_⟩
  have hne : 10 ^ pathLenBound existing ≠ 0 := by positivity
  have hdig : pathLenBound existing + 1
      ≤ (natChars (10 ^ pathLenBound existing)).length := by
    unfold natChars
    rw [if_neg hne]
    exact natCharsAux_len_ge _ _ _ le_rfl le_rfl
  have hlong : (candidate base (10 ^ pathLenBound existing)).length
      > pathLenBound existing := by
    obtain ⟨m, hm⟩ : ∃ m, 10 ^ pathLenBound existing = m + 1 := by
      have h1 : 0 < 10 ^ pathLenBound existing := Nat.pos_of_ne_zero hne
      exact ⟨10 ^ pathLenBound existing - 1, by omega⟩
    rw [hm]
    simp only [candidate, List.length_append, List.length_cons]
    rw [← hm]
    omega
  have := hlen _ hmem
  omega

/-- Source `getArchivePath`, its collision loop: the first candidate path that does
not already exist.  `Nat.find` picks the least free counter value, exactly
as the `while` loop does. -/
def resolveArchivePath (existing : List Chars) (base : Chars) : Chars :=
  candidate base (Nat.find (existsFreeCandidate existing base))

/-! ## Execution loop (`main`, src/unnamed/part_003 lines 665-915)

The loop's per-iteration state is the in-memory `taskAttempts` map; the
environment supplies, per iteration, the task-store text at the top of the
iteration, the agent invocation's outcome and the task-store text after the
invocation returns. -/

/-- Source `CONFIG.maxGlobalLoops`. -/
def maxGlobalLoops : Nat := 100

/-- Source `CONFIG.maxRetriesPerTask`. -/
def maxRetriesPerTask : Nat := 5

/-- Source `CONFIG.cooldownMs`. -/
def cooldownMs : Nat := 5000

/-- Source `CONFIG.taskTimeoutMs` with `OREO_TASK_TIMEOUT_MS` unset (30 minutes). -/
def taskTimeoutMsDefault : Nat := 1800000

/-- Source `CONFIG.heartbeatIntervalMs` with `OREO_HEARTBEAT_MS` unset (1 minute). -/
def heartbeatIntervalMsDefault : Nat := 60000

/-- Source `CONFIG.silentWarningMs`: 5 minutes of silence triggers the warning. -/
def silentWarningMs : Nat := 5 * 60 * 1000

/-- The grace period of both kill sequences (`setTimeout(…, 5000)`). -/
def gracePeriodMs : Nat := 5000

/-- The `taskAttempts` object: id ↦ attempt count, absent = 0. -/
abbrev AttemptMap := List (Nat × Nat)

/-- Lookup `taskAttempts[id] || 0`. -/
def getAttempts (m : AttemptMap) (tid : Nat) : Nat :=
  ((m.find? (fun p => p.1 = tid)).map Prod.snd).getD 0

/-- Assignment `taskAttempts[id] = v`. -/
def setAttempts (m : AttemptMap) (tid v : Nat) : AttemptMap :=
  (tid, v) :: m.filter (fun p => p.1 ≠ tid)

/-- JS `delete taskAttempts[id]`. -/
def delAttempts (m : AttemptMap) (tid : Nat) : AttemptMap :=
  m.filter (fun p => p.1 ≠ tid)

/-- How one agent invocation ends: the child's `exit` event with a code,
a `spawn` error, or the hard wall-clock timeout winning the race. -/
inductive AgentExit
  | exited (code : Int)
  | spawnError
  | timedOut
deriving DecidableEq

/-- The execution promise resolves (instead of rejecting) exactly on exit
code 0; every other outcome rejects and lands in the iteration's `catch`. -/
def agentSucceeded : AgentExit → Bool
  | .exited code => code = 0
  | .spawnError => false
  | .timedOut => false

/-- JS `tasks.find(t => !t.completed)`: the next task in document order. -/
def firstIncomplete (ts : List Task) : Option Task :=
  ts.find? (fun t => !t.completed)

/-- The post-execution check
`updatedTasks.find(t => t.id === task.id)?.completed` (with JS's
`undefined` being falsy in the `if`). -/
def completionLookup (ts : List Task) (tid : Nat) : Bool :=
  ((ts.find? (fun t => t.id = tid)).map Task.completed).getD false

/-- What one pass of the `while` body does: finish (all tasks complete,
`process.exit(0)` after archiving), abort (retry budget exhausted,
`process.exit(1)`), or run the agent and carry the updated attempt map into
the next iteration.  `judgedComplete` records whether the iteration took
the success branch (reset + git commit) or the retry branch. -/
inductive IterResult
  | allDone
  | aborted
  | ran (judgedComplete : Bool) (attempts' : AttemptMap)
deriving DecidableEq

/-- One iteration of the golden loop, faithful to the source's control
flow: parse, select the first incomplete task, check the retry budget,
invoke the agent, and only when the invocation resolved (exit code 0)
re-parse the store and branch on the checkbox; every rejection path goes
through the `catch`, which bumps the attempt counter without re-checking
the store. -/
def loopIter (attempts : AttemptMap) (content : Chars) (ares : AgentExit)
    (newContent : Chars) : IterResult :=
  match firstIncomplete (parseTasks content) with
  | none => .allDone
  | some task =>
    let a := getAttempts attempts task.id
    if a ≥ maxRetriesPerTask then .aborted
    else if agentSucceeded ares then
      if completionLookup (parseTasks newContent) task.id then
        .ran true (delAttempts attempts task.id)
      else
        .ran false (setAttempts attempts task.id (a + 1))
    else
      .ran false (setAttempts attempts task.id (a + 1))

/-- The environment of one iteration: the task-store text when the
iteration starts, the invocation outcome, and the task-store text when the
invocation returns (the external agent owns the file). -/
structure IterInput where
  content : Chars
  agentExit : AgentExit
  newContent : Chars

/-- How the process leaves the loop: `process.exit(0)` on all-complete,
`process.exit(1)` on retry exhaustion, or the `while` condition turning
false after `maxGlobalLoops` iterations, after which `main` merely logs a
warning and returns. -/
inductive LoopExit
  | exitZero
  | exitOne
  | ranOut
deriving DecidableEq

/-- The iterations of `main`'s `while (loops < CONFIG.maxGlobalLoops)`
loop, with the remaining iteration budget as fuel (`loops` numbers the
iterations from 1 as the source's counter does). -/
def runLoopFuel (env : Nat → IterInput) (attempts : AttemptMap)
    (loops : Nat) : Nat → LoopExit
  | 0 => .ranOut
  | fuel + 1 =>
    match loopIter attempts (env loops).content (env loops).agentExit
        (env loops).newContent with
    | .allDone => .exitZero
    | .aborted => .exitOne
    | .ran _ a' => runLoopFuel env a' (loops + 1) fuel

/-- The whole loop: empty attempt map, iteration counter 1, at most
`maxGlobalLoops` iterations. -/
def runLoop (env : Nat → IterInput) : LoopExit :=
  runLoopFuel env [] 1 maxGlobalLoops

/-- The process exit code each loop exit produces.  `ranOut` maps to 0:
after the `while` loop `main` logs `Max loops reached` and returns
normally, `main().catch` sees no rejection, and a Node process whose event
loop drains exits with code 0. -/
def processExitCode : LoopExit → Nat
  | .exitZero => 0
  | .exitOne => 1
  | .ranOut => 0

/-! ## Agent supervision (src/unnamed/part_003 lines 789-874)

The heartbeat interval callback and the two kill sequences are modelled as
the actions they emit. -/

/-- An action the supervisor can take on a tick or timeout. -/
inductive SupervisorAction
  | logInfo
  | logWarn
  | sigterm
  | sigkill
deriving DecidableEq

/-- The heartbeat interval callback: compare the silence span against
`CONFIG.silentWarningMs` and log — a warning when the agent has been
silent too long, an "agent still running" info line otherwise. -/
def heartbeatTick (nowMs lastOutputMs : Nat) : SupervisorAction :=
  if nowMs - lastOutputMs > silentWarningMs then .logWarn else .logInfo

/-- The timeout kill sequence: `SIGTERM` at once, and after the 5-second
grace period `SIGKILL` — which only lands if the process is still alive
(`process.kill` on a dead pid throws and the error is swallowed). -/
def timeoutKillSeq (aliveAfterGrace : Bool) : List (Nat × SupervisorAction) :=
  (0, SupervisorAction.sigterm) ::
    (if aliveAfterGrace then [(gracePeriodMs, SupervisorAction.sigkill)] else [])

/-- A concrete environment trace: at the start of every iteration the
store shows task 1 incomplete, the agent exits 0 and the store then shows
it complete.  Each iteration succeeds (counter reset), yet the loop never
sees an all-complete store at the top of an iteration, so neither exit is
taken and the iteration cap runs out. -/
def envAlwaysCompleting : Nat → IterInput := fun _ =>
  ⟨"- [ ] **Task 1: A**".toList, AgentExit.exited 0, "- [x] **Task 1: A**".toList⟩

/-! # Theorems

Helper lemmas first, then one theorem (with witness or counterexample as
needed) per claim. -/

/-- Looking up the id just written. -/
theorem getAttempts_set_same (m : AttemptMap) (tid v : Nat) :
    getAttempts (setAttempts m tid v) tid = v := by
  simp [getAttempts, setAttempts, List.find?]

/-- Lemma: `find?` ignores entries a filter on a different key removed. -/
theorem find?_filter_ne (m : AttemptMap) (tid j : Nat) (h : j ≠ tid) :
    (m.filter (fun p => p.1 ≠ tid)).find? (fun p => p.1 = j) =
      m.find? (fun p => p.1 = j) := by
  induction m with
  | nil => rfl
  | cons a m ih =>
    rw [List.filter_cons]
    by_cases ha : a.1 = tid
    · rw [if_neg (by simp [ha]), ih, List.find?_cons_of_neg _ (by simp [ha]; omega)]
    · rw [if_pos (by simp [ha])]
      by_cases hq : a.1 = j
      · rw [List.find?_cons_of_pos _ (by simp [hq]),
          List.find?_cons_of_pos _ (by simp [hq])]
      · rw [List.find?_cons_of_neg _ (by simp [hq]),
          List.find?_cons_of_neg _ (by simp [hq]), ih]

/-- Writing one id leaves every other id's count alone. -/
theorem getAttempts_set_other (m : AttemptMap) (tid v j : Nat) (h : j ≠ tid) :
    getAttempts (setAttempts m tid v) j = getAttempts m j := by
  unfold getAttempts setAttempts
  rw [List.find?_cons_of_neg _ (by simp; omega), find?_filter_ne m tid j h]

/-- Deleting an id zeroes its count (absent reads as 0). -/
theorem getAttempts_del_same (m : AttemptMap) (tid : Nat) :
    getAttempts (delAttempts m tid) tid = 0 := by
  unfold getAttempts delAttempts
  induction m with
  | nil => rfl
  | cons a m ih =>
    rw [List.filter_cons]
    by_cases ha : a.1 = tid
    · rw [if_neg (by simp [ha])]; exact ih
    · rw [if_pos (by simp [ha]), List.find?_cons_of_neg _ (by simp [ha])]
      exact ih

/-- Deleting one id leaves every other id's count alone. -/
theorem getAttempts_del_other (m : AttemptMap) (tid j : Nat) (h : j ≠ tid) :
    getAttempts (delAttempts m tid) j = getAttempts m j := by
  unfold getAttempts delAttempts
  rw [find?_filter_ne m tid j h]

/-- A head-position real-task match gives an occurrence. -/
theorem hasRealTask_of_at (l : Chars) (h : realTaskAt l = true) :
    hasRealTask l = true := by
  cases l with
  | nil => simp [realTaskAt] at h
  | cons c r => simp [hasRealTask, h]

/-- Occurrences survive prepending a character. -/
theorem hasRealTask_cons_of (c : Char) (l : Chars) (h : hasRealTask l = true) :
    hasRealTask (c :: l) = true := by
  simp [hasRealTask, h]

/-- An incomplete-task occurrence contains a real-task occurrence (the
pattern `- [ ] **Task N:` contains `**Task N:`). -/
theorem hasReal_of_hasIncomplete (l : Chars) (h : hasIncompleteTask l = true) :
    hasRealTask l = true := by
  induction l with
  | nil => simp [hasIncompleteTask] at h
  | cons c rest ih =>
    rw [hasIncompleteTask] at h
    simp only [Bool.or_eq_true] at h
    rcases h with h1 | h1
    · unfold incompleteTaskAt at h1
      split at h1
      all_goals first
        | exact absurd h1 Bool.false_ne_true
        | (rename_i heq
           rw [heq]
           iterate 6 apply hasRealTask_cons_of
           exact hasRealTask_of_at _ h1)
    · exact hasRealTask_cons_of c rest (ih h1)

/-- C3: `selectModel` follows the strict priority order on the combined
lowercased title+details text: cheap (HAIKU) when the text contains
`[simple]`; else standard (SONNET) when it contains `[complex]` or
`[critical]`; else standard when any fixed complexity keyword occurs; else
cheap.  In particular `[SIMPLE]` wins over any keyword, and
`[CRITICAL]`/`[COMPLEX]` (absent `[SIMPLE]`) force standard with no
keyword needed. -/
theorem claim3_select_model_priority (t : Task) :
    (hasSub "[simple]".toList (lowerStr (t.title ++ ' ' :: t.details)) = true →
      selectModel t = Tier.haiku)
  ∧ (hasSub "[simple]".toList (lowerStr (t.title ++ ' ' :: t.details)) = false →
      (hasSub "[complex]".toList (lowerStr (t.title ++ ' ' :: t.details)) = true ∨
       hasSub "[critical]".toList (lowerStr (t.title ++ ' ' :: t.details)) = true) →
      selectModel t = Tier.sonnet)
  ∧ (hasSub "[simple]".toList (lowerStr (t.title ++ ' ' :: t.details)) = false →
     hasSub "[complex]".toList (lowerStr (t.title ++ ' ' :: t.details)) = false →
     hasSub "[critical]".toList (lowerStr (t.title ++ ' ' :: t.details)) = false →
      (complexKeywords.any
          (fun kw => hasSub kw (lowerStr (t.title ++ ' ' :: t.details))) = true →
        selectModel t = Tier.sonnet)
      ∧ (complexKeywords.any
          (fun kw => hasSub kw (lowerStr (t.title ++ ' ' :: t.details))) = false →
        selectModel t = Tier.haiku)) := by
  refine ⟨fun h => ?_, fun h1 h2 => ?_, fun h1 h2 h3 => ⟨fun h4 => ?_, fun h4 => ?_⟩⟩
  · simp only [selectModel]
    rw [if_pos h]
  · simp only [selectModel]
    rw [if_neg (by rw [h1]; exact Bool.false_ne_true),
      if_pos (by rcases h2 with h2 | h2 <;> rw [h2] <;> simp)]
  · simp only [selectModel]
    rw [if_neg (by rw [h1]; exact Bool.false_ne_true),
      if_neg (by rw [h2, h3]; decide), if_pos h4]
  · simp only [selectModel]
    rw [if_neg (by rw [h1]; exact Bool.false_ne_true),
      if_neg (by rw [h2, h3]; decide),
      if_neg (by rw [h4]; exact Bool.false_ne_true)]

/-- C3 witness: concrete tasks exercising each branch — `[SIMPLE]` beats
the keyword "database"; `[CRITICAL]` forces standard with no keyword; a
bare keyword forces standard; no signal at all is cheap. -/
theorem claim3_witness :
    selectModel ⟨1, "Fix [SIMPLE] database".toList, false, []⟩ = Tier.haiku
  ∧ selectModel ⟨2, "Touch this [CRITICAL]".toList, false, []⟩ = Tier.sonnet
  ∧ selectModel ⟨3, "Update the schema".toList, false, []⟩ = Tier.sonnet
  ∧ selectModel ⟨4, "Tidy readme".toList, false, []⟩ = Tier.haiku :=
  ⟨(claim3_select_model_priority _).1 (by decide),
   (claim3_select_model_priority _).2.1 (by decide) (Or.inr (by decide)),
   ((claim3_select_model_priority _).2.2 (by decide) (by decide) (by decide)).1 (by decide),
   ((claim3_select_model_priority _).2.2 (by decide) (by decide) (by decide)).2 (by decide)⟩

/-- C9: the heartbeat interval callback only logs — an info line, or a
warning once silence passes `silentWarningMs` — and never emits a kill;
the only kill path is the hard-timeout sequence: SIGTERM at once, then
after the 5-second grace period SIGKILL exactly when the child is still
alive.  The defaults are 30 minutes (hard timeout), 1 minute (heartbeat
interval), 5 minutes (silence warning) and 5 seconds (grace period). -/
theorem claim9_heartbeat_never_kills :
    (∀ nowMs lastOutputMs : Nat,
      heartbeatTick nowMs lastOutputMs ∈
        [SupervisorAction.logInfo, SupervisorAction.logWarn])
  ∧ timeoutKillSeq true =
      [(0, SupervisorAction.sigterm), (gracePeriodMs, SupervisorAction.sigkill)]
  ∧ timeoutKillSeq false = [(0, SupervisorAction.sigterm)]
  ∧ silentWarningMs = 5 * 60 * 1000
  ∧ taskTimeoutMsDefault = 30 * 60 * 1000
  ∧ heartbeatIntervalMsDefault = 60 * 1000
  ∧ gracePeriodMs = 5 * 1000 := by
  refine ⟨fun nowMs lastOutputMs => ?_, by decide, by decide, by decide, by decide,
    by decide, by decide⟩
  unfold heartbeatTick
  split <;> simp

/-- C10: with two tasks sharing id 1 — the earlier complete, the later
incomplete — the loop selects the later one, yet the post-execution lookup
`updatedTasks.find(t => t.id === task.id)` hits the earlier (complete)
record first, so the iteration judges the selected task complete (resets
its counter and commits) although its own checkbox never flipped: the
store text is unchanged across the invocation. -/
theorem claim10_duplicate_id_first_match :
    parseTasks "- [x] **Task 1: A**\n- [ ] **Task 1: B**".toList =
      [⟨1, "A".toList, true, []⟩, ⟨1, "B".toList, false, []⟩]
  ∧ firstIncomplete
      (parseTasks "- [x] **Task 1: A**\n- [ ] **Task 1: B**".toList) =
      some ⟨1, "B".toList, false, []⟩
  ∧ completionLookup
      (parseTasks "- [x] **Task 1: A**\n- [ ] **Task 1: B**".toList) 1 = true
  ∧ loopIter [] "- [x] **Task 1: A**\n- [ ] **Task 1: B**".toList
      (AgentExit.exited 0) "- [x] **Task 1: A**\n- [ ] **Task 1: B**".toList =
      IterResult.ran true [] := by
  refine ⟨by decide, by decide, by decide, by decide⟩

/-- The session-resume gate as one boolean equation. -/
theorem checkSession_eq (content : Chars) (commitsAhead : Option Nat) :
    checkSessionIncomplete true content commitsAhead =
      (hasRealTask content && hasIncompleteTask content) := by
  unfold checkSessionIncomplete
  cases commitsAhead <;> cases hr : hasRealTask content <;>
    cases hi : hasIncompleteTask content <;> simp [hr, hi]

/-- C5: on a branch matching the session naming convention (the `oreo-`
lead), the resume is honored if and only if the task store holds at least
one real (numbered, non-template) task AND at least one incomplete numbered
task line; and an incomplete numbered task line is itself a real-task
occurrence, so "one of those real tasks is incomplete". -/
theorem claim5_resume_iff_incomplete_real_task (branch content : Chars)
    (commitsAhead : Option Nat) :
    (sessionBranchLead.isPrefixOf branch = true →
      (resumeDecision branch true content commitsAhead = true ↔
        (hasRealTask content = true ∧ hasIncompleteTask content = true)))
  ∧ (hasIncompleteTask content = true → hasRealTask content = true) := by
  constructor
  · intro hb
    unfold resumeDecision
    rw [hb, checkSession_eq, Bool.true_and, Bool.and_eq_true]
  · exact hasReal_of_hasIncomplete content

/-- C5 witness: a concrete resumable store (one incomplete numbered task)
resumes; the fresh template (literal `Task N`, no numbered task) does not. -/
theorem claim5_resume_witness :
    resumeDecision "oreo-auth-fix-2026".toList true
      "**Session**: x\n- [x] **Task 1: A**\n- [ ] **Task 2: B**".toList none = true
  ∧ resumeDecision "oreo-auth-fix-2026".toList true
      "- [ ] **Task N: Title** [SIMPLE|COMPLEX|CRITICAL]".toList none = false := by
  constructor
  · exact ((claim5_resume_iff_incomplete_real_task _ _ _).1 (by decide)).mpr
      ⟨by decide, by decide⟩
  · decide

/-- C7 (amended): `verify-auth.js` classifies reusable when its content is
free of every hard-coded content pattern — not only the numeric-identifier
patterns but also the `session|temporary|temp` markers, which the content
check rejects too; `verify-task-36-fix.js` is session-specific whatever its
content; and any filename that matches no generic pattern is
session-specific by default. -/
theorem claim7_test_classification (content : Chars) :
    (contentSessionSpecific content = false →
      isTestReusable "verify-auth.js".toList content = true)
  ∧ isTestReusable "verify-task-36-fix.js".toList content = false
  ∧ (∀ filename : Chars, matchesGeneric filename = false →
      isTestReusable filename content = false) := by
  refine ⟨fun h => ?_, ?_, fun filename hf => ?_⟩
  · unfold isTestReusable
    rw [if_neg (by decide), if_pos (by decide)]
    cases hc : content.isEmpty
    · rw [if_neg Bool.false_ne_true, if_neg (by rw [h]; exact Bool.false_ne_true)]
    · rw [if_pos rfl]
  · unfold isTestReusable
    rw [if_pos (by decide)]
  · unfold isTestReusable
    cases hss : sessionSpecificName filename
    · rw [if_neg Bool.false_ne_true, if_neg (by rw [hf]; exact Bool.false_ne_true)]
    · rw [if_pos rfl]

/-- C7 counterexample to the claim as stated: the content `temp` embeds no
numeric identifier at all (it has no digit), yet `verify-auth.js` with that
content classifies session-specific, because the content check also rejects
the `session|temporary|temp` markers. -/
theorem claim7_temp_marker_counterexample :
    isTestReusable "verify-auth.js".toList "temp".toList = false
  ∧ "temp".toList.all (fun c => !c.isDigit) = true :=
  ⟨by decide, by decide⟩

/-- C7 witness: clean content is reusable under `verify-auth.js`; the
task-numbered filename never is; a filename outside the generic patterns
never is. -/
theorem claim7_classification_witness :
    isTestReusable "verify-auth.js".toList "let x = require(\"y\")".toList = true
  ∧ isTestReusable "verify-task-36-fix.js".toList "let x = 1".toList = false
  ∧ isTestReusable "my-helper.js".toList "abc".toList = false :=
  ⟨(claim7_test_classification _).1 (by decide),
   (claim7_test_classification _).2.1,
   (claim7_test_classification _).2.2 _ (by decide)⟩

/-- Lemma: `takeWhile` splits off exactly an all-true block when what follows
starts false (or nothing follows). -/
theorem takeWhile_all_append {α : Type} (p : α → Bool) (ds rest : List α)
    (hds : ds.all p = true)
    (hrest : rest.head?.all (fun r => !p r) = true) :
    (ds ++ rest).takeWhile p = ds := by
  induction ds with
  | nil =>
    cases rest with
    | nil => rfl
    | cons r rs =>
      have hr : p r = false := by
        simp only [List.head?, Option.all_some] at hrest
        simpa using hrest
      simp only [List.nil_append]
      rw [List.takeWhile_cons, if_neg (by rw [hr]; exact Bool.false_ne_true)]
  | cons d ds ih =>
    rw [List.all_cons, Bool.and_eq_true] at hds
    rw [List.cons_append, List.takeWhile_cons, if_pos hds.1, ih hds.2]

/-- C4 (amended): once a task line is found, its detail block is the run of
immediately following indented lines (those starting with `  -` or four
spaces), each accumulated after `trim()` — not verbatim — joined with
newlines, terminated by the first line not of that shape or the end of the
document. -/
theorem claim4_details_trimmed_block (line : Chars) (ds rest : List Chars)
    (done : Bool) (tid : Nat) (title : Chars)
    (hm : matchTaskLine line = some (done, tid, title))
    (hds : ds.all isIndented = true)
    (hrest : rest.head?.all (fun r => !isIndented r) = true) :
    parseTasksLines (line :: (ds ++ rest)) =
      ⟨tid, title, done, joinNl (ds.map trimChars)⟩ ::
        parseTasksLines (ds ++ rest) := by
  have htake := takeWhile_all_append isIndented ds rest hds hrest
  simp only [parseTasksLines, hm, takeDetails, htake]

/-- C4 counterexample to "verbatim, character for character": the single
indented line is `  - d`, but the parsed detail block is the trimmed
`- d`. -/
theorem claim4_verbatim_counterexample :
    parseTasks "- [ ] **Task 1: A**\n  - d".toList =
      [⟨1, "A".toList, false, "- d".toList⟩]
  ∧ splitLines "- [ ] **Task 1: A**\n  - d".toList =
      ["- [ ] **Task 1: A**".toList, "  - d".toList]
  ∧ ("- d".toList == "  - d".toList) = false :=
  ⟨by decide, by decide, by decide⟩

/-- C4 witness: a concrete task line with one indented detail line and one
terminating plain line. -/
theorem claim4_details_witness :
    parseTasksLines ("- [ ] **Task 2: B**".toList ::
        (["  - keep  ".toList] ++ ["end".toList])) =
      ⟨2, "B".toList, false, joinNl (["  - keep  ".toList].map trimChars)⟩ ::
        parseTasksLines (["  - keep  ".toList] ++ ["end".toList]) :=
  claim4_details_trimmed_block _ _ _ _ _ _ (by decide) (by decide) (by decide)

/-- C1 (amended): the post-execution completion check runs only when the
invocation resolves (child exit code 0): then the re-parsed checkbox is
ground truth — flipped means success (counter deleted), unflipped means
failure despite the clean exit.  Every other outcome — non-zero exit,
spawn error, hard timeout — rejects into the iteration's `catch`, which
bumps the attempt counter without re-reading the store, so an agent that
exits non-zero after flipping the checkbox is still counted as a failed
attempt. -/
theorem claim1_completion_check_contract (attempts : AttemptMap)
    (content newContent : Chars) (task : Task)
    (hsel : firstIncomplete (parseTasks content) = some task)
    (hbudget : getAttempts attempts task.id < maxRetriesPerTask) :
    (completionLookup (parseTasks newContent) task.id = true →
      loopIter attempts content (AgentExit.exited 0) newContent =
        IterResult.ran true (delAttempts attempts task.id))
  ∧ (completionLookup (parseTasks newContent) task.id = false →
      loopIter attempts content (AgentExit.exited 0) newContent =
        IterResult.ran false
          (setAttempts attempts task.id (getAttempts attempts task.id + 1)))
  ∧ (∀ code : Int, code ≠ 0 →
      loopIter attempts content (AgentExit.exited code) newContent =
        IterResult.ran false
          (setAttempts attempts task.id (getAttempts attempts task.id + 1)))
  ∧ loopIter attempts content AgentExit.spawnError newContent =
      IterResult.ran false
        (setAttempts attempts task.id (getAttempts attempts task.id + 1))
  ∧ loopIter attempts content AgentExit.timedOut newContent =
      IterResult.ran false
        (setAttempts attempts task.id (getAttempts attempts task.id + 1)) := by
  have hnot : ¬ getAttempts attempts task.id ≥ maxRetriesPerTask := by omega
  refine ⟨fun hc => ?_, fun hc => ?_, fun code hcode => ?_, ?_, ?_⟩
  · simp only [loopIter, hsel]
    rw [if_neg hnot, if_pos (by decide), if_pos hc]
  · simp only [loopIter, hsel]
    rw [if_neg hnot, if_pos (by decide),
      if_neg (by rw [hc]; exact Bool.false_ne_true)]
  · simp only [loopIter, hsel]
    rw [if_neg hnot, if_neg (by simp [agentSucceeded, hcode])]
  · simp only [loopIter, hsel]
    rw [if_neg hnot, if_neg (by simp [agentSucceeded])]
  · simp only [loopIter, hsel]
    rw [if_neg hnot, if_neg (by simp [agentSucceeded])]

/-- C1 counterexample to the claim as stated: the agent flips the checkbox
(the re-parsed store reports task 1 complete) but exits 1; the iteration
takes the failure path — counter bumped to 1, no reset — instead of being
"treated as success regardless of the exit code". -/
theorem claim1_nonzero_exit_counterexample :
    completionLookup (parseTasks "- [x] **Task 1: A**".toList) 1 = true
  ∧ loopIter [] "- [ ] **Task 1: A**".toList (AgentExit.exited 1)
      "- [x] **Task 1: A**".toList = IterResult.ran false [(1, 1)] :=
  ⟨by decide, by decide⟩

/-- C1 witness: on exit code 0 with the checkbox flipped, the iteration is
a success and the counter entry is deleted. -/
theorem claim1_exit_zero_witness :
    loopIter [] "- [ ] **Task 1: A**".toList (AgentExit.exited 0)
      "- [x] **Task 1: A**".toList = IterResult.ran true (delAttempts [] 1) :=
  (claim1_completion_check_contract [] _ _ ⟨1, "A".toList, false, []⟩
    (by decide) (by decide)).1 (by decide)

/-- C6: with a task selected, the iteration aborts iff that task's counter
already reached `maxRetriesPerTask`; under budget, an observed-incomplete
outcome (a failed invocation, or exit 0 with the checkbox unflipped) bumps
exactly the selected task's counter by one, and an observed-complete
outcome resets exactly that counter to zero — every other id's counter is
untouched either way. -/
theorem claim6_attempt_counter_invariants (attempts : AttemptMap)
    (content : Chars) (ares : AgentExit) (newContent : Chars) (task : Task)
    (hsel : firstIncomplete (parseTasks content) = some task) :
    (loopIter attempts content ares newContent = IterResult.aborted ↔
      getAttempts attempts task.id ≥ maxRetriesPerTask)
  ∧ (getAttempts attempts task.id < maxRetriesPerTask →
      (agentSucceeded ares &&
        completionLookup (parseTasks newContent) task.id) = false →
      loopIter attempts content ares newContent =
        IterResult.ran false
          (setAttempts attempts task.id (getAttempts attempts task.id + 1))
      ∧ getAttempts
          (setAttempts attempts task.id (getAttempts attempts task.id + 1))
          task.id = getAttempts attempts task.id + 1
      ∧ ∀ j, j ≠ task.id →
          getAttempts
            (setAttempts attempts task.id (getAttempts attempts task.id + 1)) j
            = getAttempts attempts j)
  ∧ (getAttempts attempts task.id < maxRetriesPerTask →
      (agentSucceeded ares &&
        completionLookup (parseTasks newContent) task.id) = true →
      loopIter attempts content ares newContent =
        IterResult.ran true (delAttempts attempts task.id)
      ∧ getAttempts (delAttempts attempts task.id) task.id = 0
      ∧ ∀ j, j ≠ task.id →
          getAttempts (delAttempts attempts task.id) j
            = getAttempts attempts j) := by
  refine ⟨?_, fun hb hjc => ?_, fun hb hjc => ?_⟩
  · by_cases hge : getAttempts attempts task.id ≥ maxRetriesPerTask
    · simp only [loopIter, hsel]
      rw [if_pos hge]
      simp [hge]
    · cases hs : agentSucceeded ares
      · simp [loopIter, hsel, hge, hs]
      · cases hcl : completionLookup (parseTasks newContent) task.id
        · simp [loopIter, hsel, hge, hs, hcl]
        · simp [loopIter, hsel, hge, hs, hcl]
  · have hnot : ¬ getAttempts attempts task.id ≥ maxRetriesPerTask := by omega
    cases hs : agentSucceeded ares
    · refine ⟨?_, getAttempts_set_same _ _ _, fun j hj => getAttempts_set_other _ _ _ _ hj⟩
      simp only [loopIter, hsel]
      rw [if_neg hnot, if_neg (by rw [hs]; exact Bool.false_ne_true)]
    · rw [hs, Bool.true_and] at hjc
      refine ⟨?_, getAttempts_set_same _ _ _, fun j hj => getAttempts_set_other _ _ _ _ hj⟩
      simp only [loopIter, hsel]
      rw [if_neg hnot, if_pos hs, if_neg (by rw [hjc]; exact Bool.false_ne_true)]
  · have hnot : ¬ getAttempts attempts task.id ≥ maxRetriesPerTask := by omega
    rw [Bool.and_eq_true] at hjc
    refine ⟨?_, getAttempts_del_same _ _, fun j hj => getAttempts_del_other _ _ _ hj⟩
    simp only [loopIter, hsel]
    rw [if_neg hnot, if_pos hjc.1, if_pos hjc.2]

/-- C6 witness: a concrete observed-incomplete iteration bumps task 1's
counter from 0 to 1 and leaves other ids at 0. -/
theorem claim6_counter_witness :
    loopIter [] "- [ ] **Task 1: A**".toList (AgentExit.exited 0)
        "- [ ] **Task 1: A**".toList =
      IterResult.ran false (setAttempts [] 1 (getAttempts [] 1 + 1))
  ∧ getAttempts (setAttempts [] 1 (getAttempts [] 1 + 1)) 1
      = getAttempts [] 1 + 1
  ∧ ∀ j, j ≠ 1 →
      getAttempts (setAttempts [] 1 (getAttempts [] 1 + 1)) j
        = getAttempts [] j :=
  (claim6_attempt_counter_invariants [] _ _ _ ⟨1, "A".toList, false, []⟩
    (by decide)).2.1 (by decide) (by decide)

/-- C2 (amended): the loop exits with code 0 when the parse at the top of
an iteration finds no incomplete task, and with code 1 when the selected
task's counter has exhausted the retry budget; but when the global
iteration cap runs out, `main` only logs a warning and returns, so the
process exit code is 0, not 1. -/
theorem claim2_exit_code_contract :
    (∀ (env : Nat → IterInput) (attempts : AttemptMap) (loops fuel : Nat),
      firstIncomplete (parseTasks (env loops).content) = none →
        runLoopFuel env attempts loops (fuel + 1) = LoopExit.exitZero)
  ∧ (∀ (env : Nat → IterInput) (attempts : AttemptMap) (loops fuel : Nat)
      (task : Task),
      firstIncomplete (parseTasks (env loops).content) = some task →
      getAttempts attempts task.id ≥ maxRetriesPerTask →
        runLoopFuel env attempts loops (fuel + 1) = LoopExit.exitOne)
  ∧ (∀ (env : Nat → IterInput) (attempts : AttemptMap) (loops : Nat),
      runLoopFuel env attempts loops 0 = LoopExit.ranOut)
  ∧ processExitCode LoopExit.exitZero = 0
  ∧ processExitCode LoopExit.exitOne = 1
  ∧ processExitCode LoopExit.ranOut = 0 := by
  refine ⟨fun env attempts loops fuel h => ?_,
    fun env attempts loops fuel task h hge => ?_,
    fun env attempts loops => rfl, rfl, rfl, rfl⟩
  · simp only [runLoopFuel, loopIter, h]
  · simp only [runLoopFuel, loopIter, h]
    rw [if_pos hge]

/-- Under the always-completing environment the loop never exits early:
every iteration succeeds with an empty attempt map carried forward, so the
fuel runs dry. -/
theorem runLoopFuel_envAlwaysCompleting (fuel : Nat) :
    ∀ loops, runLoopFuel envAlwaysCompleting [] loops fuel = LoopExit.ranOut := by
  induction fuel with
  | zero => intro loops; rfl
  | succ fuel ih =>
    intro loops
    have hstep : loopIter [] "- [ ] **Task 1: A**".toList (AgentExit.exited 0)
        "- [x] **Task 1: A**".toList = IterResult.ran true [] := by decide
    simp only [runLoopFuel, envAlwaysCompleting]
    rw [hstep]
    exact ih (loops + 1)

/-- C2 counterexample to "exit code 1 on iteration-cap exhaustion": a
concrete run that exhausts all 100 iterations leaves the loop by the
`while` condition, and the process exit code is 0. -/
theorem claim2_cap_exhaustion_counterexample :
    runLoop envAlwaysCompleting = LoopExit.ranOut
  ∧ processExitCode (runLoop envAlwaysCompleting) = 0 := by
  have h := runLoopFuel_envAlwaysCompleting maxGlobalLoops 1
  refine ⟨h, ?_⟩
  rw [runLoop, h]
  rfl

/-- C2 witness: an all-complete store exits 0 at once; an exhausted retry
budget exits 1 at once. -/
theorem claim2_exit_witness :
    runLoopFuel (fun _ => ⟨"- [x] **Task 1: A**".toList, AgentExit.exited 0,
        "- [x] **Task 1: A**".toList⟩) [] 1 maxGlobalLoops = LoopExit.exitZero
  ∧ runLoopFuel (fun _ => ⟨"- [ ] **Task 1: A**".toList, AgentExit.exited 0,
        "- [ ] **Task 1: A**".toList⟩) [(1, 5)] 1 maxGlobalLoops
      = LoopExit.exitOne :=
  ⟨claim2_exit_code_contract.1 _ [] 1 99 (by decide),
   claim2_exit_code_contract.2.1 _ [(1, 5)] 1 99 ⟨1, "A".toList, false, []⟩
     (by decide) (by decide)⟩

/-- C8: two consecutive archive operations for the same derived base name
(same session name, creation timestamp equal to the minute) never collide:
after the first operation creates its directory, the second resolves to a
path different from the first and from every previously existing path; and
whenever the first took the bare base path, the second carries a numeric
`_k` suffix, `k ≥ 1`. -/
theorem claim8_archive_path_unique (existing : List Chars) (base : Chars) :
    resolveArchivePath (resolveArchivePath existing base :: existing) base ≠
      resolveArchivePath existing base
  ∧ resolveArchivePath (resolveArchivePath existing base :: existing) base ∉
      existing
  ∧ (resolveArchivePath existing base = base →
      ∃ k, 1 ≤ k ∧
        resolveArchivePath (resolveArchivePath existing base :: existing) base
          = base ++ '_' :: natChars k) := by
  have h2 := Nat.find_spec
    (existsFreeCandidate (resolveArchivePath existing base :: existing) base)
  rw [List.mem_cons] at h2
  push_neg at h2
  refine ⟨h2.1, h2.2, fun hp1 => ?_⟩
  rcases hn : Nat.find
      (existsFreeCandidate (resolveArchivePath existing base :: existing) base)
    with _ | m
  · exfalso
    have hcontra := h2.1
    rw [hn] at hcontra
    simp only [candidate] at hcontra
    rw [hp1] at hcontra
    exact hcontra rfl
  · refine ⟨m + 1, by omega, ?_⟩
    show candidate base (Nat.find
      (existsFreeCandidate (resolveArchivePath existing base :: existing) base))
      = base ++ '_' :: natChars (m + 1)
    rw [hn]
    rfl

/-- C8 witness: with no pre-existing archives, the first operation takes
the bare path `a` and the second derives `a_1`: they differ. -/
theorem claim8_suffix_witness :
    resolveArchivePath ["a".toList] "a".toList ≠ "a".toList
  ∧ resolveArchivePath ["a".toList] "a".toList = "a".toList ++ '_' :: natChars 1 := by
  have hp1 : resolveArchivePath [] "a".toList = "a".toList := by
    have h0 : Nat.find (existsFreeCandidate [] "a".toList) = 0 := by
      rw [Nat.find_eq_zero]
      simp [candidate]
    rw [resolveArchivePath, h0]
    rfl
  have h := claim8_archive_path_unique [] "a".toList
  rw [hp1] at h
  have hk : Nat.find (existsFreeCandidate ["a".toList] "a".toList) = 1 := by
    rw [Nat.find_eq_iff]
    refine ⟨by decide, ?_⟩
    intro n hn
    interval_cases n
    decide
  refine ⟨h.1, ?_⟩
  rw [resolveArchivePath, hk]
  rfl

end Oroboreo
